import Mathlib

/-!
# Verification of `generate_tiles_multiprocess.py`

A shallow embedding of the tile-rendering pipeline of the
`mapnik2mbtiles` repository (single source file
`generate_tiles_multiprocess.py`), together with theorems settling the
specification claims about it.

Modelling conventions:
* Python floats are modelled as real numbers (`ℝ`); the transcendental
  functions `math.sin`, `math.log`, `math.exp`, `math.atan` become
  `Real.sin`, `Real.log`, `Real.exp`, `Real.arctan`.
* Python 3 `round` (round half to even) is `pyRound`.
* Python list indexing `l[i]`, which wraps negative indices and raises
  `IndexError` out of range, is `pyIndex`, returning `Option`;
  a raised exception is modelled as `none`.
* Python `range(a, b)` over integers is `pyRange a b`.
* Python `int(p / tile_sizef)` for an integer `p` and a tile size from
  the CLI choices {256, 512, 1024} (powers of two, so the float
  division is exact) truncates toward zero: `Int.tdiv`.
-/

namespace GenerateTiles

open scoped Classical

/-- Constant `DEG_TO_RAD = math.pi / 180` (line 16 of the source). -/
noncomputable def DEG_TO_RAD : ℝ := Real.pi / 180

/-- Constant `RAD_TO_DEG = 180 / math.pi` (line 17 of the source). -/
noncomputable def RAD_TO_DEG : ℝ := 180 / Real.pi

/-- Constant `MERC_MAX_LATITUDE = 85.0511287798065923778` (line 19 of the source). -/
noncomputable def MERC_MAX_LATITUDE : ℝ := 85.0511287798065923778

/-- Python 3 `round`: round to nearest integer, ties to even. -/
noncomputable def pyRound (x : ℝ) : ℤ :=
  if Int.fract x = 1 / 2 then (if Even ⌊x⌋ then ⌊x⌋ else ⌊x⌋ + 1) else round x

/-- Python list indexing `l[i]`: wraps one round of negative indices,
raises `IndexError` (modelled `none`) otherwise. -/
def pyIndex {α : Type} (l : List α) (i : ℤ) : Option α :=
  if 0 ≤ i then l.get? i.toNat
  else if 0 ≤ i + l.length then l.get? (i + l.length).toNat
  else none

/-- Python `range(a, b)` for integers: `[a, a+1, ..., b-1]`, empty when `b ≤ a`. -/
def pyRange (a b : ℤ) : List ℤ := (List.range (b - a).toNat).map (fun i : ℕ => a + (i : ℤ))

/-- The per-zoom constants tables of class `GoogleProjection`
(lines 24–38 of the source). -/
structure GoogleProjection where
  Bc : List ℝ
  Cc : List ℝ
  zc : List (ℝ × ℝ)
  Ac : List ℝ

/-- The `__init__` loop body of `GoogleProjection`: starting from the
current value of `c`, produce the tails of the four tables for the
remaining `levels` iterations (`c` doubles each iteration). -/
noncomputable def buildTables (c : ℝ) : ℕ → List ℝ × List ℝ × List (ℝ × ℝ) × List ℝ
  | 0 => ([], [], [], [])
  | n + 1 =>
    let e := c / 2
    let rest := buildTables (c * 2) n
    (c / 360 :: rest.1, c / (2 * Real.pi) :: rest.2.1, (e, e) :: rest.2.2.1, c :: rest.2.2.2)

/-- Constructor `GoogleProjection(levels, tile_size)` (lines 25–38 of the source). -/
noncomputable def GoogleProjection.init (levels : ℕ) (tile_size : ℝ) : GoogleProjection :=
  let t := buildTables tile_size levels
  ⟨t.1, t.2.1, t.2.2.1, t.2.2.2⟩

/-- Method `GoogleProjection.from_ll_to_pixel` (lines 40–45 of the source).
`zoom` is a Python list index; an `IndexError` is `none`. -/
noncomputable def GoogleProjection.from_ll_to_pixel (p : GoogleProjection) (ll : ℝ × ℝ)
    (zoom : ℤ) : Option (ℤ × ℤ) := do
  let d ← pyIndex p.zc zoom
  let bc ← pyIndex p.Bc zoom
  let e := pyRound (d.1 + ll.1 * bc)
  let f := min (max (Real.sin (DEG_TO_RAD * ll.2)) (-0.9999)) 0.9999
  let cc ← pyIndex p.Cc zoom
  let g := pyRound (d.2 + 0.5 * Real.log ((1 + f) / (1 - f)) * -cc)
  return (e, g)

/-- Method `GoogleProjection.from_pixel_to_ll` (lines 47–52 of the source). -/
noncomputable def GoogleProjection.from_pixel_to_ll (p : GoogleProjection) (px : ℝ × ℝ)
    (zoom : ℤ) : Option (ℝ × ℝ) := do
  let e ← pyIndex p.zc zoom
  let bc ← pyIndex p.Bc zoom
  let f := (px.1 - e.1) / bc
  let cc ← pyIndex p.Cc zoom
  let g := (px.2 - e.2) / -cc
  let h := RAD_TO_DEG * (2 * Real.arctan (Real.exp g) - 0.5 * Real.pi)
  return (f, h)

/-! ## The tile enumeration of `render_tiles`

Lines 172–208 of the source: `gprj = GoogleProjection(max_zoom + 1, tile_size)`,
`ll0 = (bbox[0], bbox[3])`, `ll1 = (bbox[2], bbox[1])`, then for each
`z` in `range(min_zoom, max_zoom + 1)` the pixel corners are converted
to an inclusive rectangle of tile indices, and every `(x, y)` whose
coordinate falls outside `[0, 2^z)` is skipped (`continue`) while the
rest are enqueued. The per-zoom queue contents, in order, is modelled by
`tilesAtZoom`; a raised `IndexError` would propagate as `none`. -/

noncomputable def tilesAtZoom (gprj : GoogleProjection) (tile_size : ℤ) (ll0 ll1 : ℝ × ℝ)
    (z : ℕ) : Option (List (ℤ × ℤ)) := do
  let px0 ← gprj.from_ll_to_pixel ll0 (z : ℤ)
  let px1 ← gprj.from_ll_to_pixel ll1 (z : ℤ)
  return (pyRange (px0.1.tdiv tile_size) (px1.1.tdiv tile_size + 1)).flatMap (fun x =>
    if x < 0 ∨ 2 ^ z ≤ x then []
    else (pyRange (px0.2.tdiv tile_size) (px1.2.tdiv tile_size + 1)).flatMap (fun y =>
      if y < 0 ∨ 2 ^ z ≤ y then [] else [(x, y)]))

/-- The zoom loop of `render_tiles`, over an explicit list of zoom levels. -/
noncomputable def renderTilesLoop (gprj : GoogleProjection) (tile_size : ℤ) (ll0 ll1 : ℝ × ℝ) :
    List ℕ → Option (List (ℕ × ℤ × ℤ))
  | [] => some []
  | z :: zs => do
    let t ← tilesAtZoom gprj tile_size ll0 ll1 z
    let rest ← renderTilesLoop gprj tile_size ll0 ll1 zs
    return t.map (fun p => (z, p.1, p.2)) ++ rest

/-- The full tile enumeration of `render_tiles(..., bbox, min_zoom, max_zoom, ...)`:
the sequence of `(z, x, y)` coordinates submitted to the work queue. -/
noncomputable def renderTilesCoords (bbox : ℝ × ℝ × ℝ × ℝ) (min_zoom max_zoom : ℕ)
    (tile_size : ℤ) : Option (List (ℕ × ℤ × ℤ)) :=
  renderTilesLoop (GoogleProjection.init (max_zoom + 1) (tile_size : ℝ)) tile_size
    (bbox.1, bbox.2.2.2) (bbox.2.2.1, bbox.2.1)
    (List.range' min_zoom (max_zoom + 1 - min_zoom))

/-! ## The work queue and worker loop (`RenderThread.loop`, lines 103–127)

A queue item is either a render request tuple
`(name, tile_uri, x, y, z)` or the `None` shutdown sentinel; we model
the item as `Option RenderRequest`. A worker's interaction with the
queue is captured by the (finite) sequence of items it pops, in order:
the loop calls `task_done` once per popped item — once for each render
request (whether rendered or skipped) and once for the sentinel — and
exits the loop right after acknowledging the sentinel. -/

/-- The tuple `t = (name, tile_uri, x, y, z)` put on the queue (line 204). -/
abbrev RenderRequest : Type := String × String × ℤ × ℤ × ℕ

/-- Number of `task_done` acknowledgments the worker loop performs on a
given popped-item sequence (it stops popping at the first sentinel). -/
def loopAcks : List (Option RenderRequest) → ℕ
  | [] => 0
  | none :: _ => 1
  | some _ :: rest => 1 + loopAcks rest

/-- Whether the worker loop terminates (reaches a `None` sentinel and
executes `break`) on a given popped-item sequence. -/
def loopStops : List (Option RenderRequest) → Bool
  | [] => false
  | none :: _ => true
  | some _ :: rest => loopStops rest

/-! ## Worker skip-if-exists policy (lines 113–117) and re-run idempotency

The file system is modelled as a partial map from paths to file
contents; the external renderer (`render_tile` followed by `im.save`)
is an arbitrary function from a request to the bytes it writes. The
loop body checks `os.path.isfile(tile_uri)`: if the file exists it
records `"exists"` and does not invoke the renderer, else it renders
and writes the destination file. -/

/-- File system state: path ↦ contents of the file, if it exists. -/
def FileState : Type := String → Option String

/-- One iteration of the worker loop body for a render request `r`
(lines 113–117): returns the new file system, whether the external
renderer was invoked, and the `exists` marker recorded for logging. -/
def loopBody (render : RenderRequest → String) (fs : FileState) (r : RenderRequest) :
    FileState × Bool × String :=
  if (fs r.2.1).isSome then (fs, false, "exists")
  else (fun p => if p = r.2.1 then some (render r) else fs p, true, "")

/-- Processing a list of render requests in order; returns the final
file system and the number of renderer invocations. -/
def runRequests (render : RenderRequest → String) (fs : FileState) :
    List RenderRequest → FileState × ℕ
  | [] => (fs, 0)
  | r :: rs =>
    let s := loopBody render fs r
    let rest := runRequests render s.1 rs
    (rest.1, (if s.2.1 then 1 else 0) + rest.2)

/-! ## `RenderThread.render_tile` bounding-box computation (lines 73–86)

`tr` is the worker's one-time-built coordinate transform
(`mapnik.ProjTransform(map_prj, self.prj).forward`), modelled as an
arbitrary function on boxes; `Box2d(a, b, c, d)` is the 4-tuple. The
worker's `tile_proj` is `GoogleProjection(max_zoom + 1, tile_size)`
(line 69). -/

/-- The geographic box handed to the renderer by
`RenderThread.render_tile` for tile `(x, y, z)`: pixel corners
`p0 = (x*size, (y+1)*size)` (bottom-left) and
`p1 = ((x+1)*size, y*size)` (top-right), converted by
`from_pixel_to_ll`, assembled as `Box2d(l0[0], l0[1], l1[0], l1[1])`
and reprojected once through `tr.forward`. -/
noncomputable def renderTileBox (tr : ℝ × ℝ × ℝ × ℝ → ℝ × ℝ × ℝ × ℝ) (max_zoom : ℕ)
    (tile_size : ℤ) (x y : ℤ) (z : ℤ) : Option (ℝ × ℝ × ℝ × ℝ) := do
  let tile_proj := GoogleProjection.init (max_zoom + 1) (tile_size : ℝ)
  let p0 := (((x * tile_size : ℤ) : ℝ), (((y + 1) * tile_size : ℤ) : ℝ))
  let p1 := ((((x + 1) * tile_size : ℤ) : ℝ), ((y * tile_size : ℤ) : ℝ))
  let l0 ← tile_proj.from_pixel_to_ll p0 z
  let l1 ← tile_proj.from_pixel_to_ll p1 z
  return tr (l0.1, l0.2, l1.1, l1.2)

/-- Modelled from the spec (§4.4a): "convert `(x*size, (y+1)*size)` and
`((x+1)*size, y*size)` pixel corners to `GeoPoint` via
`Projection.toGeo`, producing a box in the tile scheme's native frame,
then reproject that box into the rendering engine's native coordinate
reference system using a one-time-built coordinate transform". -/
noncomputable def specTileBox (tr : ℝ × ℝ × ℝ × ℝ → ℝ × ℝ × ℝ × ℝ) (proj : GoogleProjection)
    (tile_size : ℤ) (x y : ℤ) (z : ℤ) : Option (ℝ × ℝ × ℝ × ℝ) :=
  (proj.from_pixel_to_ll (((x * tile_size : ℤ) : ℝ), (((y + 1) * tile_size : ℤ) : ℝ)) z).bind
    fun g0 =>
      (proj.from_pixel_to_ll ((((x + 1) * tile_size : ℤ) : ℝ), ((y * tile_size : ℤ) : ℝ)) z).map
        fun g1 => tr (g0.1, g0.2, g1.1, g1.2)

/-! ## `metadata.json` construction (`__main__`, lines 355–370)

The metadata dict literal, the comprehension dropping empty-string
values, and `json.dump(..., sort_keys=True)` which serializes the keys
in sorted order. JSON objects are modelled as association lists. -/

/-- The metadata dict literal of lines 355–365: five computed fields and
four fields that are the empty string. -/
def buildMetadata (name format bounds minzoom maxzoom : String) : List (String × String) :=
  [("name", name), ("format", format), ("bounds", bounds), ("minzoom", minzoom),
    ("maxzoom", maxzoom), ("attribution", ""), ("description", ""), ("type", ""),
    ("version", "")]

/-- Line 367 (`{k: v for k, v in metadata.items() if v != ""}`) followed by
`json.dump(..., sort_keys=True)` (line 370): drop empty-valued fields,
serialize keys in sorted order. -/
def writtenMetadata (m : List (String × String)) : List (String × String) :=
  (m.filter (fun kv => kv.2 != "")).mergeSort (fun a b => decide (a.1 ≤ b.1))

/-! ## CLI deletion of the pre-existing tile directory (lines 323–324)

`if os.path.exists(tiles_dir) and os.path.isdir(tiles_dir):
shutil.rmtree(tiles_dir)`. The file system is modelled as a list of
entries (path as a list of components, flag whether the entry is a
directory); `shutil.rmtree` removes every entry whose path lies under
the given directory, the directory itself included. -/

/-- A file-system path, as a list of components. -/
abbrev FsPath : Type := List String

/-- Predicate `startsWithDir d p`: path `p` equals `d` or lies beneath directory `d`. -/
def startsWithDir : FsPath → FsPath → Bool
  | [], _ => true
  | _ :: _, [] => false
  | a :: d, b :: p => a == b && startsWithDir d p

/-- Deletion `shutil.rmtree(d)`: recursively delete `d` and everything below it. -/
def shutilRmtree (fs : List (FsPath × Bool)) (d : FsPath) : List (FsPath × Bool) :=
  fs.filter (fun e => !(startsWithDir d e.1))

/-- Lines 323–324 of `__main__`: delete the tile directory if it exists
and is a directory, before `render_tiles` starts any worker. -/
def cliCleanTilesDir (fs : List (FsPath × Bool)) (tiles_dir : FsPath) :
    List (FsPath × Bool) :=
  if (fs.any (fun e => e.1 == tiles_dir)) && (fs.any (fun e => e.1 == tiles_dir && e.2))
  then shutilRmtree fs tiles_dir else fs

/-! ## Tile formats: file extension vs renderer encoding (lines 96–101, 316–319) -/

/-- Python `str.startswith(pre)` on the underlying character lists. -/
def charsStartWith : List Char → List Char → Bool
  | [], _ => true
  | _ :: _, [] => false
  | c :: pre, d :: s => c == d && charsStartWith pre s

/-- Python `s.startswith(pre)`. -/
def pyStartsWith (s pre : String) : Bool := charsStartWith pre.data s.data

/-- Line 319: `tiles_ext = "png" if args.format.startswith("png") else args.format`. -/
def tilesExtOf (format : String) : String :=
  if pyStartsWith format "png" then "png" else format

/-- The encoding string handed to `im.save` by `RenderThread.render_tile`
(lines 96–101). -/
def imSaveFormat (tile_fmt : String) : String :=
  if tile_fmt == "webp" then "webp:lossless=1:quality=100:image_hint=3"
  else if tile_fmt == "jpg" then "jpeg100"
  else tile_fmt ++ ":z=9:s=rle"

/-- The `--format` CLI choices (line 286). -/
def FORMAT_CHOICES : List String := ["jpg", "png", "png8", "png24", "png32", "png256", "webp"]

/-! ## Lemmas and claim theorems -/

/-! ## Table lookup lemmas

For a valid index `k < levels` the four tables of
`GoogleProjection.init levels tile_size` hold the closed-form values
`tile_size * 2^k / 360`, `tile_size * 2^k / (2π)`,
`(tile_size * 2^k / 2, tile_size * 2^k / 2)` and `tile_size * 2^k`. -/

lemma buildTables_length (c : ℝ) (n : ℕ) :
    (buildTables c n).1.length = n ∧ (buildTables c n).2.1.length = n ∧
      (buildTables c n).2.2.1.length = n ∧ (buildTables c n).2.2.2.length = n := by
  induction n generalizing c with
  | zero => simp [buildTables]
  | succ n ih =>
    obtain ⟨h1, h2, h3, h4⟩ := ih (c * 2)
    simp [buildTables, h1, h2, h3, h4]

lemma buildTables_get (c : ℝ) (n k : ℕ) (hk : k < n) :
    (buildTables c n).1.get? k = some (c * 2 ^ k / 360) ∧
      (buildTables c n).2.1.get? k = some (c * 2 ^ k / (2 * Real.pi)) ∧
      (buildTables c n).2.2.1.get? k = some (c * 2 ^ k / 2, c * 2 ^ k / 2) ∧
      (buildTables c n).2.2.2.get? k = some (c * 2 ^ k) := by
  induction n generalizing c k with
  | zero => omega
  | succ n ih =>
    cases k with
    | zero => simp [buildTables]
    | succ k =>
      obtain ⟨h1, h2, h3, h4⟩ := ih (c * 2) k (by omega)
      have harith : c * 2 * 2 ^ k = c * 2 ^ (k + 1) := by ring
      simp only [buildTables, List.get?_cons_succ, h1, h2, h3, h4, harith]
      simp

lemma GoogleProjection.init_lengths (levels : ℕ) (ts : ℝ) :
    (GoogleProjection.init levels ts).Bc.length = levels ∧
      (GoogleProjection.init levels ts).Cc.length = levels ∧
      (GoogleProjection.init levels ts).zc.length = levels ∧
      (GoogleProjection.init levels ts).Ac.length = levels := by
  obtain ⟨h1, h2, h3, h4⟩ := buildTables_length ts levels
  exact ⟨h1, h2, h3, h4⟩

/-- Indexing `pyIndex` at a valid non-negative index. -/
lemma pyIndex_ofNat {α : Type} (l : List α) (k : ℕ) : pyIndex l (k : ℤ) = l.get? k := by
  simp [pyIndex]

lemma init_Bc_get (levels : ℕ) (ts : ℝ) (k : ℕ) (hk : k < levels) :
    pyIndex (GoogleProjection.init levels ts).Bc (k : ℤ) = some (ts * 2 ^ k / 360) := by
  rw [pyIndex_ofNat]
  exact (buildTables_get ts levels k hk).1

lemma init_Cc_get (levels : ℕ) (ts : ℝ) (k : ℕ) (hk : k < levels) :
    pyIndex (GoogleProjection.init levels ts).Cc (k : ℤ) = some (ts * 2 ^ k / (2 * Real.pi)) := by
  rw [pyIndex_ofNat]
  exact (buildTables_get ts levels k hk).2.1

lemma init_zc_get (levels : ℕ) (ts : ℝ) (k : ℕ) (hk : k < levels) :
    pyIndex (GoogleProjection.init levels ts).zc (k : ℤ) =
      some (ts * 2 ^ k / 2, ts * 2 ^ k / 2) := by
  rw [pyIndex_ofNat]
  exact (buildTables_get ts levels k hk).2.2.1

/-! ## Rounding lemmas -/

/-- Rounding `pyRound` maps any real within distance `< 1/2` of an integer to that
integer (no tie can occur there, so banker's rounding agrees with
ordinary rounding). -/
lemma pyRound_eq_of_abs_lt (n : ℤ) (x : ℝ) (h : |x - n| < 1 / 2) : pyRound x = n := by
  have hlo : (n : ℝ) - 1 / 2 < x := by
    have := abs_lt.mp h
    linarith [this.1]
  have hhi : x < (n : ℝ) + 1 / 2 := by
    have := abs_lt.mp h
    linarith [this.2]
  have hfr : Int.fract x ≠ 1 / 2 := by
    intro hf
    have hfl := Int.fract_add_floor x
    have hx : x = (⌊x⌋ : ℝ) + 1 / 2 := by rw [hf] at hfl; linarith
    rcases le_or_lt n ⌊x⌋ with hc | hc
    · have : (n : ℝ) ≤ (⌊x⌋ : ℝ) := by exact_mod_cast hc
      linarith
    · have : (⌊x⌋ : ℝ) + 1 ≤ (n : ℝ) := by exact_mod_cast hc
      linarith
  rw [pyRound, if_neg hfr, round_eq, Int.floor_eq_iff]
  refine ⟨by linarith, by linarith⟩

/-- Rounding `pyRound` of an integer gives that integer. -/
lemma pyRound_intCast (n : ℤ) : pyRound (n : ℝ) = n := by
  apply pyRound_eq_of_abs_lt
  simp

/-! ## Python `range` lemmas -/

lemma mem_pyRange {a b x : ℤ} : x ∈ pyRange a b ↔ a ≤ x ∧ x < b := by
  rw [pyRange]
  constructor
  · intro hx
    obtain ⟨i, hi, hie⟩ := List.mem_map.mp hx
    have hi2 := List.mem_range.mp hi
    omega
  · intro ⟨h1, h2⟩
    exact List.mem_map.mpr ⟨(x - a).toNat, List.mem_range.mpr (by omega), by omega⟩

lemma pyRange_nodup (a b : ℤ) : (pyRange a b).Nodup := by
  rw [pyRange]
  refine List.Nodup.map ?_ (List.nodup_range _)
  intro i j hij
  simp only [add_right_inj, Nat.cast_inj] at hij
  exact hij

lemma mem_tilesAtZoom {gprj : GoogleProjection} {tile_size : ℤ} {ll0 ll1 : ℝ × ℝ} {z : ℕ}
    {t : List (ℤ × ℤ)} (h : tilesAtZoom gprj tile_size ll0 ll1 z = some t) :
    ∀ p ∈ t, 0 ≤ p.1 ∧ p.1 < 2 ^ z ∧ 0 ≤ p.2 ∧ p.2 < 2 ^ z := by
  cases e0 : gprj.from_ll_to_pixel ll0 (z : ℤ) with
  | none => simp [tilesAtZoom, e0] at h
  | some px0 =>
    cases e1 : gprj.from_ll_to_pixel ll1 (z : ℤ) with
    | none => simp [tilesAtZoom, e0, e1] at h
    | some px1 =>
      simp only [tilesAtZoom, e0, e1, Option.pure_def, Option.bind_eq_bind, Option.some_bind,
        Option.some_inj] at h
      subst h
      intro p hp
      simp only [List.mem_flatMap] at hp
      obtain ⟨x, _, hx⟩ := hp
      by_cases hguardx : x < 0 ∨ 2 ^ z ≤ x
      · simp [hguardx] at hx
      · simp only [if_neg hguardx, List.mem_flatMap] at hx
        obtain ⟨y, _, hy⟩ := hx
        by_cases hguardy : y < 0 ∨ 2 ^ z ≤ y
        · simp [hguardy] at hy
        · simp only [if_neg hguardy, List.mem_singleton] at hy
          subst hy
          push_neg at hguardx hguardy
          exact ⟨by omega, by omega, by omega, by omega⟩

/-- Claim C1. Every tile coordinate yielded by the enumeration in
`render_tiles` is within bounds: for every `(z, x, y)` in the yielded
list, `0 ≤ x < 2^z` and `0 ≤ y < 2^z`; candidate coordinates of the
pixel-derived rectangle outside that range are filtered out (silently,
by the `continue` branches) and never appear in the yield. -/
theorem tile_index_bounds (bbox : ℝ × ℝ × ℝ × ℝ) (min_zoom max_zoom : ℕ) (tile_size : ℤ)
    (l : List (ℕ × ℤ × ℤ)) (h : renderTilesCoords bbox min_zoom max_zoom tile_size = some l) :
    ∀ q ∈ l, 0 ≤ q.2.1 ∧ q.2.1 < 2 ^ q.1 ∧ 0 ≤ q.2.2 ∧ q.2.2 < 2 ^ q.1 := by
  rw [renderTilesCoords] at h
  generalize hzs : List.range' min_zoom (max_zoom + 1 - min_zoom) = zs at h
  clear hzs
  induction zs generalizing l with
  | nil =>
    simp only [renderTilesLoop, Option.some_inj] at h
    subst h
    intro q hq
    simp at hq
  | cons z zs ih =>
    cases e0 : tilesAtZoom (GoogleProjection.init (max_zoom + 1) (tile_size : ℝ)) tile_size
        (bbox.1, bbox.2.2.2) (bbox.2.2.1, bbox.2.1) z with
    | none => simp [renderTilesLoop, e0] at h
    | some t =>
      cases e1 : renderTilesLoop (GoogleProjection.init (max_zoom + 1) (tile_size : ℝ)) tile_size
          (bbox.1, bbox.2.2.2) (bbox.2.2.1, bbox.2.1) zs with
      | none => simp [renderTilesLoop, e0, e1] at h
      | some rest =>
        simp only [renderTilesLoop, e0, e1, Option.pure_def, Option.bind_eq_bind,
          Option.some_bind, Option.some_inj] at h
        subst h
        intro q hq
        rcases List.mem_append.mp hq with hq | hq
        · obtain ⟨p, hp, rfl⟩ := List.mem_map.mp hq
          exact mem_tilesAtZoom e0 p hp
        · exact ih rest e1 q hq

lemma loopAcks_work_then_sentinel (ts : List RenderRequest) :
    loopAcks (ts.map some ++ [none]) = ts.length + 1 := by
  induction ts with
  | nil => simp [loopAcks]
  | cons t ts ih => simp [loopAcks, ih]; omega

lemma loopStops_work_then_sentinel (ts : List RenderRequest) :
    loopStops (ts.map some ++ [none]) = true := by
  induction ts with
  | nil => simp [loopStops]
  | cons t ts ih => simpa [loopStops] using ih

/-- Claim C3. Drain accounting for `render_tiles` (lines 210–218) with the
worker loop (lines 103–127): if each of the `N` workers pops a sequence
of work items terminated by exactly one `None` sentinel (the orchestrator
pushes one sentinel per worker after enumeration, and a worker stops
popping at its first sentinel), and the work items popped across all
workers are the `M` enumerated tiles, then every worker acknowledges
(`task_done`) exactly one marking per popped item including its
sentinel, every worker's loop terminates at its sentinel (so
`renderers[i].join()` succeeds only after that sentinel is processed),
and the total number of acknowledgments — the count `queue.join()`
waits for — is exactly `M + N`. -/
theorem drain_accounting (ws : List (List (Option RenderRequest))) (N M : ℕ)
    (hN : ws.length = N)
    (hM : (ws.flatten.filter Option.isSome).length = M)
    (hw : ∀ w ∈ ws, ∃ ts : List RenderRequest, w = ts.map some ++ [none]) :
    (ws.map loopAcks).sum = M + N ∧
      ∀ w ∈ ws, loopAcks w = w.length ∧ loopStops w = true := by
  subst hN hM
  induction ws with
  | nil => simp
  | cons w ws ih =>
    obtain ⟨ts, rfl⟩ := hw w (List.mem_cons_self w ws)
    obtain ⟨ih1, ih2⟩ := ih (fun w hw' => hw w (List.mem_cons_of_mem _ hw'))
    constructor
    · simp only [List.map_cons, List.sum_cons, loopAcks_work_then_sentinel,
        List.flatten_cons, List.filter_append, List.length_append, ih1]
      have hts : List.filter (Option.isSome ∘ (some : RenderRequest → Option RenderRequest)) ts
          = ts := List.filter_eq_self.mpr (fun a _ => by simp)
      simp [List.filter_map, hts]
      omega
    · intro w hw'
      rcases List.mem_cons.mp hw' with rfl | hw'
      · refine ⟨?_, loopStops_work_then_sentinel ts⟩
        rw [loopAcks_work_then_sentinel]
        simp
      · exact ih2 w hw'

/-- Closed witness for `drain_accounting`: two workers, one enumerated
tile; the drain count is `1 + 2 = 3`. -/
theorem drain_accounting_witness :
    ([[some (("unknown", "tiles/0/0/0.png", 0, 0, 0) : RenderRequest), none], [none]].map
        loopAcks).sum = 1 + 2 ∧
      ∀ w ∈ [[some (("unknown", "tiles/0/0/0.png", 0, 0, 0) : RenderRequest), none], [none]],
        loopAcks w = w.length ∧ loopStops w = true :=
  drain_accounting _ 2 1 (by decide)
    (by decide)
    (by
      intro w hw
      rcases List.mem_cons.mp hw with rfl | hw
      · exact ⟨[("unknown", "tiles/0/0/0.png", 0, 0, 0)], by decide⟩
      · rcases List.mem_cons.mp hw with rfl | hw
        · exact ⟨[], by decide⟩
        · simp at hw)

lemma runRequests_mono (render : RenderRequest → String) (fs : FileState)
    (rs : List RenderRequest) (p : String) (h : (fs p).isSome) :
    (((runRequests render fs rs).1) p).isSome := by
  induction rs generalizing fs with
  | nil => exact h
  | cons r rs ih =>
    rw [runRequests]
    apply ih
    rw [loopBody]
    split
    · exact h
    · simp only
      split
      · simp
      · exact h

lemma runRequests_covers (render : RenderRequest → String) (fs : FileState)
    (rs : List RenderRequest) :
    ∀ r ∈ rs, (((runRequests render fs rs).1) r.2.1).isSome := by
  induction rs generalizing fs with
  | nil => simp
  | cons r rs ih =>
    intro q hq
    rcases List.mem_cons.mp hq with rfl | hq
    · rw [runRequests]
      apply runRequests_mono
      rw [loopBody]
      split
      · assumption
      · simp
    · exact ih _ q hq

lemma runRequests_all_exist (render : RenderRequest → String) (fs : FileState)
    (rs : List RenderRequest) (h : ∀ r ∈ rs, (fs r.2.1).isSome) :
    runRequests render fs rs = (fs, 0) := by
  induction rs with
  | nil => rfl
  | cons r rs ih =>
    have hr := h r (List.mem_cons_self r rs)
    rw [runRequests, loopBody, if_pos hr]
    rw [ih (fun q hq => h q (List.mem_cons_of_mem _ hq))]
    simp

/-- Claim C4. The worker's skip policy and its consequence. First, for a
request whose destination file exists, the loop body skips rendering
(the renderer is not invoked), records `"exists"`, and leaves the file
system untouched. Second, re-running the whole request list against the
file system produced by a first run invokes the renderer zero times and
leaves every file byte-identical (the file system is unchanged). -/
theorem skip_existing_idempotent (render : RenderRequest → String) (fs : FileState)
    (rs : List RenderRequest) (r : RenderRequest) (h : (fs r.2.1).isSome) :
    loopBody render fs r = (fs, false, "exists") ∧
      runRequests render (runRequests render fs rs).1 rs =
        ((runRequests render fs rs).1, 0) := by
  constructor
  · rw [loopBody, if_pos h]
  · exact runRequests_all_exist render _ rs (runRequests_covers render fs rs)

/-- Closed witness for `skip_existing_idempotent`: a one-request run
against a file system where the destination `tiles/0/0/0.png` already
exists. -/
theorem skip_existing_idempotent_witness :
    loopBody (fun _ => "image-bytes")
        (fun p => if p = "tiles/0/0/0.png" then some "old-bytes" else none)
        ("unknown", "tiles/0/0/0.png", 0, 0, 0) =
      ((fun p => if p = "tiles/0/0/0.png" then some "old-bytes" else none), false, "exists") ∧
      runRequests (fun _ => "image-bytes")
          (runRequests (fun _ => "image-bytes")
            (fun p => if p = "tiles/0/0/0.png" then some "old-bytes" else none)
            [("unknown", "tiles/0/0/0.png", 0, 0, 0)]).1
          [("unknown", "tiles/0/0/0.png", 0, 0, 0)] =
        ((runRequests (fun _ => "image-bytes")
            (fun p => if p = "tiles/0/0/0.png" then some "old-bytes" else none)
            [("unknown", "tiles/0/0/0.png", 0, 0, 0)]).1, 0) :=
  skip_existing_idempotent (fun _ => "image-bytes")
    (fun p => if p = "tiles/0/0/0.png" then some "old-bytes" else none)
    [("unknown", "tiles/0/0/0.png", 0, 0, 0)]
    ("unknown", "tiles/0/0/0.png", 0, 0, 0) (by simp)

/-! ## Zoom as a Python list index (claims about out-of-range zoom) -/

lemma pyIndex_none {α : Type} (l : List α) (i : ℤ)
    (h : (l.length : ℤ) ≤ i ∨ i + l.length < 0) : pyIndex l i = none := by
  rcases h with h | h
  · have h0 : 0 ≤ i := le_trans (by positivity) h
    rw [pyIndex, if_pos h0]
    rw [List.get?_eq_none]
    omega
  · have h0 : ¬(0 ≤ i) := by omega
    have h1 : ¬(0 ≤ i + l.length) := by omega
    rw [pyIndex, if_neg h0, if_neg h1]

/-- For a negative index that Python still accepts, `pyIndex` wraps. -/
lemma pyIndex_wrap {α : Type} (l : List α) (i : ℤ) (h0 : i < 0) (h1 : 0 ≤ i + l.length) :
    pyIndex l i = pyIndex l (i + l.length) := by
  rw [pyIndex, if_neg (by omega), if_pos h1, pyIndex, if_pos h1]

lemma from_ll_to_pixel_none (levels : ℕ) (ts : ℝ) (ll : ℝ × ℝ) (zoom : ℤ)
    (h : (levels : ℤ) ≤ zoom ∨ zoom + levels < 0) :
    (GoogleProjection.init levels ts).from_ll_to_pixel ll zoom = none := by
  have hlen := (GoogleProjection.init_lengths levels ts).2.2.1
  have hz : pyIndex (GoogleProjection.init levels ts).zc zoom = none := by
    apply pyIndex_none
    rw [hlen]
    exact h
  simp [GoogleProjection.from_ll_to_pixel, hz]

lemma from_pixel_to_ll_none (levels : ℕ) (ts : ℝ) (px : ℝ × ℝ) (zoom : ℤ)
    (h : (levels : ℤ) ≤ zoom ∨ zoom + levels < 0) :
    (GoogleProjection.init levels ts).from_pixel_to_ll px zoom = none := by
  have hlen := (GoogleProjection.init_lengths levels ts).2.2.1
  have hz : pyIndex (GoogleProjection.init levels ts).zc zoom = none := by
    apply pyIndex_none
    rw [hlen]
    exact h
  simp [GoogleProjection.from_pixel_to_ll, hz]

/-- Evaluation of `from_ll_to_pixel` once the three table lookups succeed. -/
lemma from_ll_to_pixel_eval (p : GoogleProjection) (ll : ℝ × ℝ) (zoom : ℤ)
    (d : ℝ × ℝ) (bc cc : ℝ) (hd : pyIndex p.zc zoom = some d)
    (hb : pyIndex p.Bc zoom = some bc) (hc : pyIndex p.Cc zoom = some cc) :
    p.from_ll_to_pixel ll zoom =
      some (pyRound (d.1 + ll.1 * bc),
        pyRound (d.2 + 0.5 * Real.log
          ((1 + min (max (Real.sin (DEG_TO_RAD * ll.2)) (-0.9999)) 0.9999) /
            (1 - min (max (Real.sin (DEG_TO_RAD * ll.2)) (-0.9999)) 0.9999)) * -cc)) := by
  rw [GoogleProjection.from_ll_to_pixel]
  rw [hd, hb, hc]
  rfl

/-- Evaluation of `from_pixel_to_ll` once the three table lookups succeed. -/
lemma from_pixel_to_ll_eval (p : GoogleProjection) (px : ℝ × ℝ) (zoom : ℤ)
    (d : ℝ × ℝ) (bc cc : ℝ) (hd : pyIndex p.zc zoom = some d)
    (hb : pyIndex p.Bc zoom = some bc) (hc : pyIndex p.Cc zoom = some cc) :
    p.from_pixel_to_ll px zoom =
      some ((px.1 - d.1) / bc,
        RAD_TO_DEG * (2 * Real.arctan (Real.exp ((px.2 - d.2) / -cc)) - 0.5 * Real.pi)) := by
  rw [GoogleProjection.from_pixel_to_ll]
  rw [hd, hb, hc]
  rfl

/-- The three tables of `GoogleProjection.init` all have length `levels`,
so all three lookups wrap in unison for `-levels ≤ zoom < 0`. -/
lemma from_ll_to_pixel_wrap (levels : ℕ) (ts : ℝ) (ll : ℝ × ℝ) (zoom : ℤ)
    (h0 : zoom < 0) (h1 : 0 ≤ zoom + levels) :
    (GoogleProjection.init levels ts).from_ll_to_pixel ll zoom =
      (GoogleProjection.init levels ts).from_ll_to_pixel ll (zoom + levels) := by
  obtain ⟨hB, hC, hz, _⟩ := GoogleProjection.init_lengths levels ts
  rw [GoogleProjection.from_ll_to_pixel, GoogleProjection.from_ll_to_pixel]
  rw [pyIndex_wrap _ zoom h0 (by rw [hz]; exact_mod_cast h1),
    pyIndex_wrap _ zoom h0 (by rw [hB]; exact_mod_cast h1),
    pyIndex_wrap _ zoom h0 (by rw [hC]; exact_mod_cast h1), hB, hC, hz]

/-- The same negative-index wrap for `from_pixel_to_ll`: its three table
lookups also wrap in unison for `-levels ≤ zoom < 0`. -/
lemma from_pixel_to_ll_wrap (levels : ℕ) (ts : ℝ) (px : ℝ × ℝ) (zoom : ℤ)
    (h0 : zoom < 0) (h1 : 0 ≤ zoom + levels) :
    (GoogleProjection.init levels ts).from_pixel_to_ll px zoom =
      (GoogleProjection.init levels ts).from_pixel_to_ll px (zoom + levels) := by
  obtain ⟨hB, hC, hz, _⟩ := GoogleProjection.init_lengths levels ts
  rw [GoogleProjection.from_pixel_to_ll, GoogleProjection.from_pixel_to_ll]
  rw [pyIndex_wrap _ zoom h0 (by rw [hz]; exact_mod_cast h1),
    pyIndex_wrap _ zoom h0 (by rw [hB]; exact_mod_cast h1),
    pyIndex_wrap _ zoom h0 (by rw [hC]; exact_mod_cast h1), hB, hC, hz]

/-- Claim C5, counterexample. With a one-level table (`levels = 1`,
`tile_size = 256`), calling `from_ll_to_pixel` at the invalid zoom `-1`
(not in `[0, 1)`) does **not** fail: Python's negative indexing wraps to
the last table entry and the call silently returns the pixel `(128, 128)`
for `ll = (0, 0)`. -/
theorem from_ll_to_pixel_neg_zoom_returns :
    (GoogleProjection.init 1 256).from_ll_to_pixel (0, 0) (-1) = some (128, 128) := by
  have hzc : (GoogleProjection.init 1 256).zc = [((256 : ℝ) / 2, (256 : ℝ) / 2)] := by
    simp [GoogleProjection.init, buildTables]
  have hBc : (GoogleProjection.init 1 256).Bc = [(256 : ℝ) / 360] := by
    simp [GoogleProjection.init, buildTables]
  have hCc : (GoogleProjection.init 1 256).Cc = [(256 : ℝ) / (2 * Real.pi)] := by
    simp [GoogleProjection.init, buildTables]
  have h0 : pyIndex (GoogleProjection.init 1 256).zc (-1) =
      some ((256 : ℝ) / 2, (256 : ℝ) / 2) := by
    rw [hzc]; rfl
  have hB : pyIndex (GoogleProjection.init 1 256).Bc (-1) = some ((256 : ℝ) / 360) := by
    rw [hBc]; rfl
  have hC : pyIndex (GoogleProjection.init 1 256).Cc (-1) =
      some ((256 : ℝ) / (2 * Real.pi)) := by
    rw [hCc]; rfl
  rw [from_ll_to_pixel_eval _ _ _ _ _ _ h0 hB hC]
  have hsin : Real.sin (DEG_TO_RAD * ((0 : ℝ), (0 : ℝ)).2) = 0 := by simp
  have hf : min (max (Real.sin (DEG_TO_RAD * ((0 : ℝ), (0 : ℝ)).2)) (-0.9999)) 0.9999 = 0 := by
    rw [hsin]
    norm_num
  rw [hf]
  have hlog : Real.log ((1 + (0 : ℝ)) / (1 - 0)) = 0 := by norm_num
  rw [hlog]
  have h1 : ((256 : ℝ) / 2, (256 : ℝ) / 2).1 + ((0 : ℝ), (0 : ℝ)).1 * ((256 : ℝ) / 360)
      = ((128 : ℤ) : ℝ) := by norm_num
  have h2 : ((256 : ℝ) / 2, (256 : ℝ) / 2).2 + 0.5 * 0 * -((256 : ℝ) / (2 * Real.pi))
      = ((128 : ℤ) : ℝ) := by norm_num
  rw [h1, h2, pyRound_intCast]

/-- Claim C5, amended. Out-of-range zoom and the table lookups: for
`zoom ≥ levels` or `zoom < -levels` both `from_ll_to_pixel` and
`from_pixel_to_ll` fail fast (`IndexError`, modelled as `none`); but for
`-levels ≤ zoom ≤ -1` — also not a valid index into `[0, levels)` —
Python's negative indexing silently wraps, and both functions behave
exactly as at zoom `zoom + levels` (in particular they return a value
when `levels > 0` instead of failing). -/
theorem zoom_index_contract (levels : ℕ) (ts : ℝ) (ll px : ℝ × ℝ) (zoom : ℤ)
    (h : ¬(0 ≤ zoom ∧ zoom < (levels : ℤ))) :
    ((levels : ℤ) ≤ zoom ∨ zoom + levels < 0 →
      (GoogleProjection.init levels ts).from_ll_to_pixel ll zoom = none ∧
        (GoogleProjection.init levels ts).from_pixel_to_ll px zoom = none) ∧
      (zoom < 0 → 0 ≤ zoom + levels →
        (GoogleProjection.init levels ts).from_ll_to_pixel ll zoom =
          (GoogleProjection.init levels ts).from_ll_to_pixel ll (zoom + levels) ∧
          (GoogleProjection.init levels ts).from_pixel_to_ll px zoom =
            (GoogleProjection.init levels ts).from_pixel_to_ll px (zoom + levels)) := by
  refine ⟨fun hout => ⟨from_ll_to_pixel_none levels ts ll zoom hout,
    from_pixel_to_ll_none levels ts px zoom hout⟩, fun h0 h1 =>
    ⟨from_ll_to_pixel_wrap levels ts ll zoom h0 h1,
      from_pixel_to_ll_wrap levels ts px zoom h0 h1⟩⟩

/-- Closed witness for `zoom_index_contract` at `levels = 1`,
`zoom = -1`: the invalid zoom `-1` exercises the wrap branch. -/
theorem zoom_index_contract_witness :
    ¬(0 ≤ (-1 : ℤ) ∧ (-1 : ℤ) < ((1 : ℕ) : ℤ)) ∧
      ((((1 : ℕ) : ℤ) ≤ -1 ∨ (-1 : ℤ) + (1 : ℕ) < 0 →
        (GoogleProjection.init 1 256).from_ll_to_pixel (0, 0) (-1) = none ∧
          (GoogleProjection.init 1 256).from_pixel_to_ll (0, 0) (-1) = none) ∧
      ((-1 : ℤ) < 0 → 0 ≤ (-1 : ℤ) + (1 : ℕ) →
        (GoogleProjection.init 1 256).from_ll_to_pixel (0, 0) (-1) =
          (GoogleProjection.init 1 256).from_ll_to_pixel (0, 0) (-1 + (1 : ℕ)) ∧
          (GoogleProjection.init 1 256).from_pixel_to_ll (0, 0) (-1) =
            (GoogleProjection.init 1 256).from_pixel_to_ll (0, 0) (-1 + (1 : ℕ)))) :=
  ⟨by norm_num, zoom_index_contract 1 256 (0, 0) (0, 0) (-1) (by norm_num)⟩

/-- Claim C6. Totality of `from_ll_to_pixel` on any geographic point (poles
included) at any valid table zoom: the clamped sine lies in
`[-0.9999, 0.9999]`, the argument of the logarithm is strictly
positive (no division by zero, no infinite logarithm), and the call
returns rounded integer pixel coordinates. -/
theorem from_ll_to_pixel_total (levels : ℕ) (ts : ℝ) (ll : ℝ × ℝ) (zoom : ℤ)
    (h0 : 0 ≤ zoom) (h1 : zoom < (levels : ℤ)) :
    -0.9999 ≤ min (max (Real.sin (DEG_TO_RAD * ll.2)) (-0.9999)) 0.9999 ∧
      min (max (Real.sin (DEG_TO_RAD * ll.2)) (-0.9999)) 0.9999 ≤ 0.9999 ∧
      0 < (1 + min (max (Real.sin (DEG_TO_RAD * ll.2)) (-0.9999)) 0.9999) /
          (1 - min (max (Real.sin (DEG_TO_RAD * ll.2)) (-0.9999)) 0.9999) ∧
      ∃ e g : ℤ, (GoogleProjection.init levels ts).from_ll_to_pixel ll zoom = some (e, g) := by
  set s := Real.sin (DEG_TO_RAD * ll.2) with hs
  have hlb : (-0.9999 : ℝ) ≤ min (max s (-0.9999)) 0.9999 :=
    le_min (le_max_right _ _) (by norm_num)
  have hub : min (max s (-0.9999)) 0.9999 ≤ 0.9999 := min_le_right _ _
  refine ⟨hlb, hub, div_pos (by linarith) (by linarith), ?_⟩
  set k := zoom.toNat with hk
  have hzk : (k : ℤ) = zoom := by omega
  have hkl : k < levels := by omega
  rw [← hzk]
  rw [from_ll_to_pixel_eval _ ll (k : ℤ) _ _ _
    (init_zc_get levels ts k hkl) (init_Bc_get levels ts k hkl) (init_Cc_get levels ts k hkl)]
  exact ⟨_, _, rfl⟩

/-- Closed witness for `from_ll_to_pixel_total` at the north pole
(latitude 90, beyond the Mercator-projectable range) and zoom 0. -/
theorem from_ll_to_pixel_total_witness :
    -0.9999 ≤ min (max (Real.sin (DEG_TO_RAD * ((0 : ℝ), (90 : ℝ)).2)) (-0.9999)) 0.9999 ∧
      min (max (Real.sin (DEG_TO_RAD * ((0 : ℝ), (90 : ℝ)).2)) (-0.9999)) 0.9999 ≤ 0.9999 ∧
      0 < (1 + min (max (Real.sin (DEG_TO_RAD * ((0 : ℝ), (90 : ℝ)).2)) (-0.9999)) 0.9999) /
          (1 - min (max (Real.sin (DEG_TO_RAD * ((0 : ℝ), (90 : ℝ)).2)) (-0.9999)) 0.9999) ∧
      ∃ e g : ℤ, (GoogleProjection.init 1 256).from_ll_to_pixel ((0 : ℝ), (90 : ℝ)) 0 =
        some (e, g) :=
  from_ll_to_pixel_total 1 256 ((0 : ℝ), (90 : ℝ)) 0 (by norm_num) (by norm_num)

/-- Claim C7. The box computed by `RenderThread.render_tile` is exactly the
spec's: the two pixel corners `(x*size, (y+1)*size)` and
`((x+1)*size, y*size)` through `from_pixel_to_ll` at zoom `z`, then one
application of the worker's coordinate transform; moreover for a zoom
within the worker's table (`0 ≤ z ≤ max_zoom`) the computation succeeds
and produces `tr` applied to that geographic box. -/
theorem render_tile_box_correct (tr : ℝ × ℝ × ℝ × ℝ → ℝ × ℝ × ℝ × ℝ) (max_zoom : ℕ)
    (tile_size : ℤ) (x y : ℤ) (z : ℤ) (h0 : 0 ≤ z) (h1 : z ≤ (max_zoom : ℤ)) :
    renderTileBox tr max_zoom tile_size x y z =
      specTileBox tr (GoogleProjection.init (max_zoom + 1) (tile_size : ℝ)) tile_size x y z ∧
      ∃ l0 l1 : ℝ × ℝ,
        (GoogleProjection.init (max_zoom + 1) (tile_size : ℝ)).from_pixel_to_ll
            (((x * tile_size : ℤ) : ℝ), (((y + 1) * tile_size : ℤ) : ℝ)) z = some l0 ∧
          (GoogleProjection.init (max_zoom + 1) (tile_size : ℝ)).from_pixel_to_ll
            ((((x + 1) * tile_size : ℤ) : ℝ), ((y * tile_size : ℤ) : ℝ)) z = some l1 ∧
          renderTileBox tr max_zoom tile_size x y z = some (tr (l0.1, l0.2, l1.1, l1.2)) := by
  constructor
  · rw [renderTileBox, specTileBox]
    cases (GoogleProjection.init (max_zoom + 1) (tile_size : ℝ)).from_pixel_to_ll
        (((x * tile_size : ℤ) : ℝ), (((y + 1) * tile_size : ℤ) : ℝ)) z with
    | none => rfl
    | some l0 =>
      cases (GoogleProjection.init (max_zoom + 1) (tile_size : ℝ)).from_pixel_to_ll
          ((((x + 1) * tile_size : ℤ) : ℝ), ((y * tile_size : ℤ) : ℝ)) z with
      | none => rfl
      | some l1 => rfl
  · set k := z.toNat with hk
    have hzk : (k : ℤ) = z := by omega
    have hkl : k < max_zoom + 1 := by omega
    rw [← hzk]
    rw [renderTileBox]
    rw [from_pixel_to_ll_eval _ _ (k : ℤ) _ _ _ (init_zc_get (max_zoom + 1) (tile_size : ℝ) k hkl)
      (init_Bc_get (max_zoom + 1) (tile_size : ℝ) k hkl)
      (init_Cc_get (max_zoom + 1) (tile_size : ℝ) k hkl),
      from_pixel_to_ll_eval _ _ (k : ℤ) _ _ _ (init_zc_get (max_zoom + 1) (tile_size : ℝ) k hkl)
      (init_Bc_get (max_zoom + 1) (tile_size : ℝ) k hkl)
      (init_Cc_get (max_zoom + 1) (tile_size : ℝ) k hkl)]
    exact ⟨_, _, rfl, rfl, rfl⟩

/-- Closed witness for `render_tile_box_correct`: the identity transform,
`max_zoom = 0`, tile size 256, tile `(0, 0, 0)`. -/
theorem render_tile_box_correct_witness :
    renderTileBox id 0 256 0 0 0 =
      specTileBox id (GoogleProjection.init (0 + 1) ((256 : ℤ) : ℝ)) 256 0 0 0 ∧
      ∃ l0 l1 : ℝ × ℝ,
        (GoogleProjection.init (0 + 1) ((256 : ℤ) : ℝ)).from_pixel_to_ll
            ((((0 : ℤ) * 256 : ℤ) : ℝ), ((((0 : ℤ) + 1) * 256 : ℤ) : ℝ)) 0 = some l0 ∧
          (GoogleProjection.init (0 + 1) ((256 : ℤ) : ℝ)).from_pixel_to_ll
            (((((0 : ℤ) + 1) * 256 : ℤ) : ℝ), (((0 : ℤ) * 256 : ℤ) : ℝ)) 0 = some l1 ∧
          renderTileBox id 0 256 0 0 0 = some (id (l0.1, l0.2, l1.1, l1.2)) :=
  render_tile_box_correct id 0 256 0 0 0 (by norm_num) (by norm_num)

/-- Claim C8. The `metadata.json` written next to the tiles contains exactly
the metadata fields whose values are non-empty strings (fields equal to
`""` are omitted), and its keys appear in sorted order. -/
theorem metadata_json_contents (name format bounds minzoom maxzoom : String) :
    (∀ kv : String × String,
        kv ∈ writtenMetadata (buildMetadata name format bounds minzoom maxzoom) ↔
          kv ∈ buildMetadata name format bounds minzoom maxzoom ∧ kv.2 ≠ "") ∧
      (writtenMetadata (buildMetadata name format bounds minzoom maxzoom)).Pairwise
        (fun a b => a.1 ≤ b.1) := by
  constructor
  · intro kv
    rw [writtenMetadata]
    rw [List.Perm.mem_iff (List.mergeSort_perm _ _)]
    rw [List.mem_filter]
    simp
  · have hs := @List.sorted_mergeSort (String × String)
      (fun a b => decide (a.1 ≤ b.1))
      (fun a b c hab hbc => by
        simp only [decide_eq_true_eq] at hab hbc ⊢
        exact le_trans hab hbc)
      (fun a b => by
        simp only [Bool.or_eq_true, decide_eq_true_eq]
        exact le_total a.1 b.1)
      ((buildMetadata name format bounds minzoom maxzoom).filter (fun kv => kv.2 != ""))
    rw [writtenMetadata]
    exact hs.imp (fun h => by simpa using h)

/-- Claim C9. On CLI startup, when a pre-existing tile directory
exists (as a directory), the program recursively deletes it before any
worker starts: after `cliCleanTilesDir` no entry at or below `tiles_dir`
remains — all previously rendered tile files under it are destroyed —
while every entry outside `tiles_dir` is untouched. -/
theorem tiles_dir_wiped (fs : List (FsPath × Bool)) (tiles_dir : FsPath)
    (hdir : fs.any (fun e => e.1 == tiles_dir && e.2) = true) :
    (∀ e ∈ cliCleanTilesDir fs tiles_dir, startsWithDir tiles_dir e.1 = false) ∧
      (∀ e ∈ fs, startsWithDir tiles_dir e.1 = false → e ∈ cliCleanTilesDir fs tiles_dir) := by
  have hex : fs.any (fun e => e.1 == tiles_dir) = true := by
    rw [List.any_eq_true] at hdir ⊢
    obtain ⟨e, he, hee⟩ := hdir
    exact ⟨e, he, by simpa using (Bool.and_eq_true _ _).mp hee |>.1⟩
  rw [cliCleanTilesDir, if_pos (by rw [hex, hdir]; rfl)]
  constructor
  · intro e he
    have := (List.mem_filter.mp he).2
    simpa using this
  · intro e he hout
    exact List.mem_filter.mpr ⟨he, by simpa using hout⟩

/-- Closed witness for `tiles_dir_wiped`: a file system holding a style
file and a previously rendered pyramid under `tiles/`. -/
theorem tiles_dir_wiped_witness :
    (∀ e ∈ cliCleanTilesDir
        [(["style.xml"], false), (["tiles"], true), (["tiles", "0"], true),
          (["tiles", "0", "0"], true), (["tiles", "0", "0", "0.png"], false)] ["tiles"],
        startsWithDir ["tiles"] e.1 = false) ∧
      (∀ e ∈ [(["style.xml"], false), (["tiles"], true), (["tiles", "0"], true),
          (["tiles", "0", "0"], true), (["tiles", "0", "0", "0.png"], false)],
        startsWithDir ["tiles"] e.1 = false →
          e ∈ cliCleanTilesDir
            [(["style.xml"], false), (["tiles"], true), (["tiles", "0"], true),
              (["tiles", "0", "0"], true), (["tiles", "0", "0", "0.png"], false)] ["tiles"]) :=
  tiles_dir_wiped
    [(["style.xml"], false), (["tiles"], true), (["tiles", "0"], true),
      (["tiles", "0", "0"], true), (["tiles", "0", "0", "0.png"], false)] ["tiles"]
    (by decide)

/-- Claim C10, counterexample. The claim that *only* `jpg` and `webp` have
file extension equal to the requested format fails at the explicit input
`"png"`: `"png"` is a valid `--format` choice, its tile files get
extension `"png"` — equal to the requested format — yet `"png"` is
neither `"jpg"` nor `"webp"`. -/
theorem png_extension_coincides :
    "png" ∈ FORMAT_CHOICES ∧ tilesExtOf "png" = "png" ∧
      ("png" : String) ≠ "jpg" ∧ ("png" : String) ≠ "webp" := by
  refine ⟨by decide, by decide, by decide, by decide⟩

/-- Claim C10, amended. For every png-family format the on-disk extension
is `"png"`, the metadata `format` field records `"png"`, and the
renderer is invoked with the sub-format encoding string
`format ++ ":z=9:s=rle"`; the file extension coincides with the
requested format exactly for `jpg`, plain `png`, and `webp`. -/
theorem format_extension_contract (name bounds minzoom maxzoom : String) :
    ∀ fmt ∈ FORMAT_CHOICES,
      (pyStartsWith fmt "png" = true →
        tilesExtOf fmt = "png" ∧ imSaveFormat fmt = fmt ++ ":z=9:s=rle" ∧
          ("format", "png") ∈ buildMetadata name (tilesExtOf fmt) bounds minzoom maxzoom) ∧
      (tilesExtOf fmt = fmt ↔ (fmt = "jpg" ∨ fmt = "png" ∨ fmt = "webp")) := by
  intro fmt hfmt
  fin_cases hfmt <;>
    refine ⟨fun h => ?_, by decide⟩ <;>
    first
      | exact absurd h (by decide)
      | exact ⟨by decide, by decide,
          by simp [buildMetadata, tilesExtOf, pyStartsWith, charsStartWith]⟩

/-- Closed witness for `format_extension_contract` at `fmt = "png8"`. -/
theorem format_extension_contract_witness :
    ("png8" ∈ FORMAT_CHOICES) ∧
      ((pyStartsWith "png8" "png" = true →
        tilesExtOf "png8" = "png" ∧ imSaveFormat "png8" = "png8" ++ ":z=9:s=rle" ∧
          ("format", "png") ∈ buildMetadata "n" (tilesExtOf "png8") "b" "1" "17") ∧
      (tilesExtOf "png8" = "png8" ↔
        ("png8" : String) = "jpg" ∨ ("png8" : String) = "png" ∨ ("png8" : String) = "webp")) :=
  ⟨by decide, format_extension_contract "n" "b" "1" "17" "png8" (by decide)⟩

/-! ## Numerical bounds for the Mercator extent (claim C2)

The whole-extent bounding box has latitudes `±MERC_MAX_LATITUDE`, the
latitude whose inverse-Gudermannian image is `π`. To show that the
pixel corners at zoom `z` evaluate to exactly `(0, 0)` and `(c, c)`
(with `c = tile_size * 2^z`), we bound
`s = sin(DEG_TO_RAD * MERC_MAX_LATITUDE)` by 36-digit rationals via a
Taylor bound at `x/32` and five cosine double-angle steps, and then
bound `log ((1+s)/(1-s))` against `2π` via rational bounds on `exp`. -/

lemma sin_le_taylor_hi {y σ : ℝ} (h0 : 0 ≤ y) (h1 : y ≤ 1)
    (h2 : y - y ^ 3 / 6 + y ^ 4 * (5 / 96) ≤ σ) : Real.sin y ≤ σ := by
  have hb := Real.sin_bound (x := y) (by rwa [abs_of_nonneg h0])
  rw [abs_of_nonneg h0] at hb
  have := (abs_le.mp hb).2
  linarith

lemma sin_ge_taylor_lo {y σ : ℝ} (h0 : 0 ≤ y) (h1 : y ≤ 1)
    (h2 : σ ≤ y - y ^ 3 / 6 - y ^ 4 * (5 / 96)) : σ ≤ Real.sin y := by
  have hb := Real.sin_bound (x := y) (by rwa [abs_of_nonneg h0])
  rw [abs_of_nonneg h0] at hb
  have := (abs_le.mp hb).1
  linarith

lemma cos_double_sin (t : ℝ) : Real.cos (2 * t) = 1 - 2 * Real.sin t ^ 2 := by
  have h1 := Real.cos_two_mul t
  have h2 := Real.sin_sq_add_cos_sq t
  linarith

/-- Lower bound on `cos x` at the upper end `x_hi` of the angle interval. -/
lemma cos_xhi_ge :
    (0.996272076213121424452314448378981639 : ℝ) ≤
      Real.cos (0.0863740970495642522704 : ℝ) := by
  have hsin : Real.sin ((0.0863740970495642522704 : ℝ) / 32) ≤
      0.002699187258013110395740873242132152 := by
    apply sin_le_taylor_hi (by norm_num) (by norm_num)
    norm_num
  have hnn : 0 ≤ Real.sin ((0.0863740970495642522704 : ℝ) / 32) := by
    apply Real.sin_nonneg_of_nonneg_of_le_pi (by norm_num)
    have := Real.pi_gt_three
    linarith [show (0.0863740970495642522704 : ℝ) / 32 ≤ 3 by norm_num]
  have h16 : (0.999985428776292359333219475246135222 : ℝ) ≤
      Real.cos ((0.0863740970495642522704 : ℝ) / 16) := by
    have heq : (0.0863740970495642522704 : ℝ) / 16 = 2 * (0.0863740970495642522704 / 32) := by
      ring
    rw [heq, cos_double_sin]
    nlinarith
  have h8 : (0.999941715529810558009096740606040433 : ℝ) ≤
      Real.cos ((0.0863740970495642522704 : ℝ) / 8) := by
    have heq : (0.0863740970495642522704 : ℝ) / 8 = 2 * (0.0863740970495642522704 / 16) := by
      ring
    rw [heq, Real.cos_two_mul]
    nlinarith
  have h4 : (0.999766868913401162564291176365877764 : ℝ) ≤
      Real.cos ((0.0863740970495642522704 : ℝ) / 4) := by
    have heq : (0.0863740970495642522704 : ℝ) / 4 = 2 * (0.0863740970495642522704 / 8) := by
      ring
    rw [heq, Real.cos_two_mul]
    nlinarith
  have h2 : (0.999067584353811727766444319688994290 : ℝ) ≤
      Real.cos ((0.0863740970495642522704 : ℝ) / 2) := by
    have heq : (0.0863740970495642522704 : ℝ) / 2 = 2 * (0.0863740970495642522704 / 4) := by
      ring
    rw [heq, Real.cos_two_mul]
    nlinarith
  have heq : (0.0863740970495642522704 : ℝ) = 2 * (0.0863740970495642522704 / 2) := by
    ring
  rw [heq, Real.cos_two_mul]
  nlinarith

/-- Upper bound on `cos x` at the lower end `x_lo` of the angle interval. -/
lemma cos_xlo_le :
    Real.cos (0.0863740970495642522700 : ℝ) ≤
      (0.996272076228385055980084648761680450 : ℝ) := by
  have hsin : (0.002699187252483902303783919172229857 : ℝ) ≤
      Real.sin ((0.0863740970495642522700 : ℝ) / 32) := by
    apply sin_ge_taylor_lo (by norm_num) (by norm_num)
    norm_num
  have h16 : Real.cos ((0.0863740970495642522700 : ℝ) / 16) ≤
      (0.999985428776352056805273183733151661 : ℝ) := by
    have heq : (0.0863740970495642522700 : ℝ) / 16 = 2 * (0.0863740970495642522700 / 32) := by
      ring
    rw [heq, cos_double_sin]
    nlinarith
  have h16nn : (0 : ℝ) ≤ Real.cos ((0.0863740970495642522700 : ℝ) / 16) := by
    have := Real.one_sub_sq_div_two_le_cos (x := (0.0863740970495642522700 : ℝ) / 16)
    nlinarith
  have h8 : Real.cos ((0.0863740970495642522700 : ℝ) / 8) ≤
      (0.999941715530049344417850701380829447 : ℝ) := by
    have heq : (0.0863740970495642522700 : ℝ) / 8 = 2 * (0.0863740970495642522700 / 16) := by
      ring
    rw [heq, Real.cos_two_mul]
    nlinarith
  have h8nn : (0 : ℝ) ≤ Real.cos ((0.0863740970495642522700 : ℝ) / 8) := by
    have := Real.one_sub_sq_div_two_le_cos (x := (0.0863740970495642522700 : ℝ) / 8)
    nlinarith
  have h4 : Real.cos ((0.0863740970495642522700 : ℝ) / 4) ≤
      (0.999766868914356252529149842846384495 : ℝ) := by
    have heq : (0.0863740970495642522700 : ℝ) / 4 = 2 * (0.0863740970495642522700 / 8) := by
      ring
    rw [heq, Real.cos_two_mul]
    nlinarith
  have h4nn : (0 : ℝ) ≤ Real.cos ((0.0863740970495642522700 : ℝ) / 4) := by
    have := Real.one_sub_sq_div_two_le_cos (x := (0.0863740970495642522700 : ℝ) / 4)
    nlinarith
  have h2 : Real.cos ((0.0863740970495642522700 : ℝ) / 2) ≤
      (0.999067584357631196981235581419189004 : ℝ) := by
    have heq : (0.0863740970495642522700 : ℝ) / 2 = 2 * (0.0863740970495642522700 / 4) := by
      ring
    rw [heq, Real.cos_two_mul]
    nlinarith
  have h2nn : (0 : ℝ) ≤ Real.cos ((0.0863740970495642522700 : ℝ) / 2) := by
    have := Real.one_sub_sq_div_two_le_cos (x := (0.0863740970495642522700 : ℝ) / 2)
    nlinarith
  have heq : (0.0863740970495642522700 : ℝ) = 2 * (0.0863740970495642522700 / 2) := by
    ring
  rw [heq, Real.cos_two_mul]
  nlinarith

/-- The complement of the maximal Mercator latitude, in radians, as an
exact rational multiple of `π`. -/
lemma merc_angle :
    Real.pi / 2 - DEG_TO_RAD * MERC_MAX_LATITUDE = Real.pi * 0.02749372900107448679 := by
  rw [DEG_TO_RAD, MERC_MAX_LATITUDE]
  ring_nf

/-- The sine `sin(DEG_TO_RAD * MERC_MAX_LATITUDE)` bracketed by 36-digit rationals. -/
lemma merc_sin_bounds :
    (0.996272076213121424452314448378981639 : ℝ) ≤
        Real.sin (DEG_TO_RAD * MERC_MAX_LATITUDE) ∧
      Real.sin (DEG_TO_RAD * MERC_MAX_LATITUDE) ≤
        (0.996272076228385055980084648761680450 : ℝ) := by
  have hgt := Real.pi_gt_d20
  have hlt := Real.pi_lt_d20
  have hxlo : (0.0863740970495642522700 : ℝ) ≤ Real.pi * 0.02749372900107448679 := by
    nlinarith
  have hxhi : Real.pi * 0.02749372900107448679 ≤ (0.0863740970495642522704 : ℝ) := by
    nlinarith
  have hsin_eq : Real.sin (DEG_TO_RAD * MERC_MAX_LATITUDE) =
      Real.cos (Real.pi * 0.02749372900107448679) := by
    rw [← merc_angle, Real.cos_pi_div_two_sub]
  rw [hsin_eq]
  constructor
  · refine le_trans cos_xhi_ge ?_
    apply Real.cos_le_cos_of_nonneg_of_le_pi
    · nlinarith
    · nlinarith
    · exact hxhi
  · refine le_trans ?_ cos_xlo_le
    apply Real.cos_le_cos_of_nonneg_of_le_pi
    · norm_num
    · nlinarith
    · exact hxlo

lemma exp_one_up : Real.exp 1 ≤ 363916618873 / 133877442384 + 1 / 10 ^ 20 := by
  have h := Real.exp_one_near_20
  have := (abs_le.mp h).2
  linarith

lemma exp_one_lo : 363916618873 / 133877442384 - 1 / 10 ^ 20 ≤ Real.exp 1 := by
  have h := Real.exp_one_near_20
  have := (abs_le.mp h).1
  linarith

lemma exp_six_up : Real.exp 6 ≤ 403.4287934927351226133236797 := by
  have h : Real.exp 6 = Real.exp 1 ^ 6 := by
    rw [← Real.exp_nat_mul]
    norm_num
  rw [h]
  refine le_trans (pow_le_pow_left₀ (Real.exp_pos 1).le exp_one_up 6) ?_
  norm_num

lemma exp_six_lo : (403.4287934927351225955141005 : ℝ) ≤ Real.exp 6 := by
  have h : Real.exp 6 = Real.exp 1 ^ 6 := by
    rw [← Real.exp_nat_mul]
    norm_num
  rw [h]
  refine le_trans ?_ (pow_le_pow_left₀
    (show (0 : ℝ) ≤ 363916618873 / 133877442384 - 1 / 10 ^ 20 by norm_num) exp_one_lo 6)
  norm_num

lemma exp_u_up : Real.exp 0.28318529717958647694 ≤ 1.3273510934451713875056718 := by
  have habs : |(0.28318529717958647694 : ℝ)| ≤ 1 := by
    rw [abs_of_nonneg (by norm_num)]
    norm_num
  have hb := Real.exp_bound habs (n := 13) (by norm_num)
  rw [abs_of_nonneg (by norm_num : (0 : ℝ) ≤ 0.28318529717958647694)] at hb
  have h2 := (abs_le.mp hb).2
  norm_num [Finset.sum_range_succ, Nat.factorial] at h2
  linarith

lemma exp_u_lo : (1.3273511199921934958000051 : ℝ) ≤ Real.exp 0.28318531717958647692 := by
  have habs : |(0.28318531717958647692 : ℝ)| ≤ 1 := by
    rw [abs_of_nonneg (by norm_num)]
    norm_num
  have hb := Real.exp_bound habs (n := 13) (by norm_num)
  rw [abs_of_nonneg (by norm_num : (0 : ℝ) ≤ 0.28318531717958647692)] at hb
  have h1 := (abs_le.mp hb).1
  norm_num [Finset.sum_range_succ, Nat.factorial] at h1
  linarith

lemma exp_tup_le : Real.exp 6.28318529717958647694 ≤ 535.4916501698482084 := by
  have h : (6.28318529717958647694 : ℝ) = 6 + 0.28318529717958647694 := by norm_num
  rw [h, Real.exp_add]
  have h1 := mul_le_mul exp_six_up exp_u_up (Real.exp_pos _).le (by norm_num)
  refine le_trans h1 ?_
  norm_num

lemma exp_tlo_ge : (535.4916608796813082 : ℝ) ≤ Real.exp 6.28318531717958647692 := by
  have h : (6.28318531717958647692 : ℝ) = 6 + 0.28318531717958647692 := by norm_num
  rw [h, Real.exp_add]
  have h1 := mul_le_mul exp_six_lo exp_u_lo (by norm_num) (Real.exp_pos _).le
  refine le_trans ?_ h1
  norm_num

/-- The inverse-Gudermannian value of the maximal Mercator latitude is
within `5e-9` of `π`. -/
lemma merc_log_bounds :
    Real.pi - 0.000000005 <
        0.5 * Real.log ((1 + Real.sin (DEG_TO_RAD * MERC_MAX_LATITUDE)) /
          (1 - Real.sin (DEG_TO_RAD * MERC_MAX_LATITUDE))) ∧
      0.5 * Real.log ((1 + Real.sin (DEG_TO_RAD * MERC_MAX_LATITUDE)) /
          (1 - Real.sin (DEG_TO_RAD * MERC_MAX_LATITUDE))) < Real.pi + 0.000000005 := by
  obtain ⟨hs1, hs2⟩ := merc_sin_bounds
  set s := Real.sin (DEG_TO_RAD * MERC_MAX_LATITUDE) with hs_def
  have h1ms : (0 : ℝ) < 1 - s := by linarith
  have h1ps : (0 : ℝ) < 1 + s := by linarith
  have hr_pos : 0 < (1 + s) / (1 - s) := div_pos h1ps h1ms
  constructor
  · have hr_ge : (1 + (0.996272076213121424452314448378981639 : ℝ)) /
        (1 - 0.996272076213121424452314448378981639) ≤ (1 + s) / (1 - s) := by
      rw [div_le_div_iff (by norm_num) h1ms]
      nlinarith
    have hexp_lt : Real.exp (2 * Real.pi - 0.00000001) < (1 + s) / (1 - s) := by
      have step1 : Real.exp (2 * Real.pi - 0.00000001) ≤ Real.exp 6.28318529717958647694 := by
        rw [Real.exp_le_exp]
        have := Real.pi_lt_d20
        linarith
      have step2 : (535.4916501698482084 : ℝ) <
          (1 + (0.996272076213121424452314448378981639 : ℝ)) /
            (1 - 0.996272076213121424452314448378981639) := by norm_num
      linarith [exp_tup_le]
    have hlog := Real.log_lt_log (Real.exp_pos _) hexp_lt
    rw [Real.log_exp] at hlog
    linarith
  · have hr_le : (1 + s) / (1 - s) ≤ (1 + (0.996272076228385055980084648761680450 : ℝ)) /
        (1 - 0.996272076228385055980084648761680450) := by
      rw [div_le_div_iff h1ms (by norm_num)]
      nlinarith
    have hexp_gt : (1 + s) / (1 - s) < Real.exp (2 * Real.pi + 0.00000001) := by
      have step1 : Real.exp 6.28318531717958647692 ≤ Real.exp (2 * Real.pi + 0.00000001) := by
        rw [Real.exp_le_exp]
        have := Real.pi_gt_d20
        linarith
      have step2 : (1 + (0.996272076228385055980084648761680450 : ℝ)) /
          (1 - 0.996272076228385055980084648761680450) < (535.4916608796813082 : ℝ) := by
        norm_num
      linarith [exp_tlo_ge]
    have hlog := Real.log_lt_log hr_pos hexp_gt
    rw [Real.log_exp] at hlog
    linarith

/-- Bound `|π - L| < 5e-9` for the inverse-Gudermannian value `L` of the
maximal Mercator latitude. -/
lemma merc_log_abs :
    |Real.pi - 0.5 * Real.log ((1 + Real.sin (DEG_TO_RAD * MERC_MAX_LATITUDE)) /
        (1 - Real.sin (DEG_TO_RAD * MERC_MAX_LATITUDE)))| < 0.000000005 := by
  obtain ⟨h1, h2⟩ := merc_log_bounds
  rw [abs_lt]
  constructor <;> linarith

/-- The absolute rounding bound shared by the two latitude corners: for
`0 < c ≤ 2^27` and `|π - L| < 5e-9`, the quantity `(c/(2π)) * (π - L)`
has absolute value below `1/2`. -/
lemma corner_round_bound (c L : ℝ) (hc0 : 0 < c) (hc : c ≤ 134217728)
    (hL : |Real.pi - L| < 0.000000005) : |c / (2 * Real.pi) * (Real.pi - L)| < 1 / 2 := by
  have hpi := Real.pi_gt_three
  have hK : 0 < c / (2 * Real.pi) := by positivity
  rw [abs_mul, abs_of_pos hK]
  have hstep : c / (2 * Real.pi) * |Real.pi - L| < c / (2 * Real.pi) * 0.000000005 :=
    mul_lt_mul_of_pos_left hL hK
  refine lt_of_lt_of_le hstep ?_
  rw [div_mul_eq_mul_div, div_le_iff₀ (by positivity)]
  linarith

/-- At the whole-extent north-west corner `(-180, MERC_MAX_LATITUDE)`,
`from_ll_to_pixel` yields pixel `(0, 0)` at every zoom `z < levels`
with `tile_size * 2^z ≤ 2^27`. -/
lemma corner_pixel_nw (levels : ℕ) (ts : ℤ) (z : ℕ) (hz : z < levels) (hts : 0 < ts)
    (hc : (ts : ℝ) * 2 ^ z ≤ 134217728) :
    (GoogleProjection.init levels (ts : ℝ)).from_ll_to_pixel (-180, MERC_MAX_LATITUDE) (z : ℤ)
      = some (0, 0) := by
  obtain ⟨hs1, hs2⟩ := merc_sin_bounds
  have hc0 : (0 : ℝ) < (ts : ℝ) * 2 ^ z := by positivity
  rw [from_ll_to_pixel_eval _ _ _ _ _ _ (init_zc_get levels (ts : ℝ) z hz)
    (init_Bc_get levels (ts : ℝ) z hz) (init_Cc_get levels (ts : ℝ) z hz)]
  have hfn : min (max (Real.sin (DEG_TO_RAD * ((-180 : ℝ), MERC_MAX_LATITUDE).2)) (-0.9999))
      0.9999 = Real.sin (DEG_TO_RAD * MERC_MAX_LATITUDE) := by
    show min (max (Real.sin (DEG_TO_RAD * MERC_MAX_LATITUDE)) (-0.9999)) 0.9999 = _
    rw [max_eq_left (by linarith), min_eq_left (by linarith)]
  rw [hfn]
  have he : ((ts : ℝ) * 2 ^ z / 2, (ts : ℝ) * 2 ^ z / 2).1 +
      ((-180 : ℝ), MERC_MAX_LATITUDE).1 * ((ts : ℝ) * 2 ^ z / 360) = ((0 : ℤ) : ℝ) := by
    push_cast
    ring
  rw [he, pyRound_intCast]
  have hXeq : ((ts : ℝ) * 2 ^ z / 2, (ts : ℝ) * 2 ^ z / 2).2 +
      0.5 * Real.log ((1 + Real.sin (DEG_TO_RAD * MERC_MAX_LATITUDE)) /
        (1 - Real.sin (DEG_TO_RAD * MERC_MAX_LATITUDE))) * -((ts : ℝ) * 2 ^ z / (2 * Real.pi))
      = (ts : ℝ) * 2 ^ z / (2 * Real.pi) *
        (Real.pi - 0.5 * Real.log ((1 + Real.sin (DEG_TO_RAD * MERC_MAX_LATITUDE)) /
          (1 - Real.sin (DEG_TO_RAD * MERC_MAX_LATITUDE)))) := by
    have hpine := Real.pi_ne_zero
    field_simp
    ring
  have hg : pyRound (((ts : ℝ) * 2 ^ z / 2, (ts : ℝ) * 2 ^ z / 2).2 +
      0.5 * Real.log ((1 + Real.sin (DEG_TO_RAD * MERC_MAX_LATITUDE)) /
        (1 - Real.sin (DEG_TO_RAD * MERC_MAX_LATITUDE))) *
        -((ts : ℝ) * 2 ^ z / (2 * Real.pi))) = 0 := by
    apply pyRound_eq_of_abs_lt
    rw [hXeq]
    push_cast
    rw [sub_zero]
    exact corner_round_bound _ _ hc0 hc merc_log_abs
  rw [hg]

/-- At the whole-extent south-east corner `(180, -MERC_MAX_LATITUDE)`,
`from_ll_to_pixel` yields pixel `(c, c)` with `c = tile_size * 2^z`. -/
lemma corner_pixel_se (levels : ℕ) (ts : ℤ) (z : ℕ) (hz : z < levels) (hts : 0 < ts)
    (hc : (ts : ℝ) * 2 ^ z ≤ 134217728) :
    (GoogleProjection.init levels (ts : ℝ)).from_ll_to_pixel (180, -MERC_MAX_LATITUDE) (z : ℤ)
      = some (ts * 2 ^ z, ts * 2 ^ z) := by
  obtain ⟨hs1, hs2⟩ := merc_sin_bounds
  have hc0 : (0 : ℝ) < (ts : ℝ) * 2 ^ z := by positivity
  rw [from_ll_to_pixel_eval _ _ _ _ _ _ (init_zc_get levels (ts : ℝ) z hz)
    (init_Bc_get levels (ts : ℝ) z hz) (init_Cc_get levels (ts : ℝ) z hz)]
  have hsneg : Real.sin (DEG_TO_RAD * ((180 : ℝ), -MERC_MAX_LATITUDE).2) =
      -Real.sin (DEG_TO_RAD * MERC_MAX_LATITUDE) := by
    show Real.sin (DEG_TO_RAD * -MERC_MAX_LATITUDE) = _
    rw [show DEG_TO_RAD * -MERC_MAX_LATITUDE = -(DEG_TO_RAD * MERC_MAX_LATITUDE) by ring,
      Real.sin_neg]
  have hfs : min (max (Real.sin (DEG_TO_RAD * ((180 : ℝ), -MERC_MAX_LATITUDE).2)) (-0.9999))
      0.9999 = -Real.sin (DEG_TO_RAD * MERC_MAX_LATITUDE) := by
    rw [hsneg, max_eq_left (by linarith), min_eq_left (by linarith)]
  rw [hfs]
  have hratio : (1 + -Real.sin (DEG_TO_RAD * MERC_MAX_LATITUDE)) /
      (1 - -Real.sin (DEG_TO_RAD * MERC_MAX_LATITUDE)) =
      ((1 + Real.sin (DEG_TO_RAD * MERC_MAX_LATITUDE)) /
        (1 - Real.sin (DEG_TO_RAD * MERC_MAX_LATITUDE)))⁻¹ := by
    rw [inv_div]
    ring_nf
  rw [hratio, Real.log_inv]
  have he : ((ts : ℝ) * 2 ^ z / 2, (ts : ℝ) * 2 ^ z / 2).1 +
      ((180 : ℝ), -MERC_MAX_LATITUDE).1 * ((ts : ℝ) * 2 ^ z / 360) = ((ts * 2 ^ z : ℤ) : ℝ) := by
    push_cast
    ring
  rw [he, pyRound_intCast]
  have hg : pyRound (((ts : ℝ) * 2 ^ z / 2, (ts : ℝ) * 2 ^ z / 2).2 +
      0.5 * -Real.log ((1 + Real.sin (DEG_TO_RAD * MERC_MAX_LATITUDE)) /
        (1 - Real.sin (DEG_TO_RAD * MERC_MAX_LATITUDE))) *
        -((ts : ℝ) * 2 ^ z / (2 * Real.pi))) = ts * 2 ^ z := by
    apply pyRound_eq_of_abs_lt
    have hXeq : ((ts : ℝ) * 2 ^ z / 2, (ts : ℝ) * 2 ^ z / 2).2 +
        0.5 * -Real.log ((1 + Real.sin (DEG_TO_RAD * MERC_MAX_LATITUDE)) /
          (1 - Real.sin (DEG_TO_RAD * MERC_MAX_LATITUDE))) *
          -((ts : ℝ) * 2 ^ z / (2 * Real.pi)) - ((ts * 2 ^ z : ℤ) : ℝ)
        = -((ts : ℝ) * 2 ^ z / (2 * Real.pi) *
          (Real.pi - 0.5 * Real.log ((1 + Real.sin (DEG_TO_RAD * MERC_MAX_LATITUDE)) /
            (1 - Real.sin (DEG_TO_RAD * MERC_MAX_LATITUDE))))) := by
      have hpine := Real.pi_ne_zero
      push_cast
      field_simp
      ring
    rw [hXeq, abs_neg]
    exact corner_round_bound _ _ hc0 hc merc_log_abs
  rw [hg]

/-! ## The per-zoom enumeration over the full pixel rectangle -/

lemma pyRange_length (a b : ℤ) : (pyRange a b).length = (b - a).toNat := by
  simp [pyRange]

lemma pyRange_append_last (a b : ℤ) (h : a ≤ b) : pyRange a (b + 1) = pyRange a b ++ [b] := by
  rw [pyRange, pyRange]
  have h1 : (b + 1 - a).toNat = (b - a).toNat + 1 := by omega
  rw [h1, List.range_succ, List.map_append, List.map_singleton]
  have h2 : a + ((b - a).toNat : ℤ) = b := by omega
  rw [h2]

lemma flatMap_singleton_eq_map {α β : Type} (l : List α) (g : α → β) :
    l.flatMap (fun a => [g a]) = l.map g := by
  induction l with
  | nil => rfl
  | cons a l ih => simp [ih]

lemma flatMap_congr_left {α β : Type} {l : List α} {f g : α → List β}
    (h : ∀ a ∈ l, f a = g a) : l.flatMap f = l.flatMap g := by
  induction l with
  | nil => rfl
  | cons a l ih =>
    simp only [List.flatMap_cons]
    rw [h a (List.mem_cons_self a l), ih (fun b hb => h b (List.mem_cons_of_mem _ hb))]

/-- Counting a member of a duplicate-free list, for any lawful `BEq`. -/
lemma count_eq_one_of_nodup {α : Type} [BEq α] [LawfulBEq α] {l : List α} {a : α}
    (hnd : l.Nodup) (ha : a ∈ l) : l.count a = 1 := by
  induction l with
  | nil => cases ha
  | cons b l ih =>
    rw [List.count_cons]
    rcases List.mem_cons.mp ha with rfl | ha'
    · have h0 : l.count a = 0 := List.count_eq_zero.mpr (List.nodup_cons.mp hnd).1
      simp [h0]
    · have hne : ¬(b = a) := by
        rintro rfl
        exact (List.nodup_cons.mp hnd).1 ha'
      have hb : (b == a) = false := by
        rw [beq_eq_false_iff_ne]
        exact hne
      rw [ih (List.nodup_cons.mp hnd).2 ha']
      simp [hb]

/-- Counting through an injective `map`, for any lawful `BEq`. -/
lemma count_map_inj {α β : Type} [BEq α] [LawfulBEq α] [BEq β] [LawfulBEq β]
    (l : List α) (f : α → β) (hf : Function.Injective f) (a : α) :
    (l.map f).count (f a) = l.count a := by
  induction l with
  | nil => rfl
  | cons b l ih =>
    rw [List.map_cons, List.count_cons, List.count_cons, ih]
    have hbeq : (f b == f a) = (b == a) := by
      by_cases h : b = a
      · subst h
        simp
      · have h1 : (b == a) = false := by
          rw [beq_eq_false_iff_ne]
          exact h
        have h2 : (f b == f a) = false := by
          rw [beq_eq_false_iff_ne]
          intro hc
          exact h (hf hc)
        rw [h1, h2]
    rw [hbeq]

lemma inner_guard_eq (n x : ℤ) (hn : 0 ≤ n) :
    (pyRange 0 (n + 1)).flatMap (fun y => if y < 0 ∨ n ≤ y then [] else [(x, y)]) =
      (pyRange 0 n).map (fun y => (x, y)) := by
  rw [pyRange_append_last 0 n hn, List.flatMap_append]
  have hlast : ([n] : List ℤ).flatMap (fun y => if y < 0 ∨ n ≤ y then [] else [(x, y)]) = [] := by
    simp
  rw [hlast, List.append_nil]
  rw [flatMap_congr_left (g := fun y => [(x, y)]) ?_]
  · exact flatMap_singleton_eq_map _ _
  · intro y hy
    have := mem_pyRange.mp hy
    rw [if_neg (by omega)]

lemma outer_guard_eq (n : ℤ) (hn : 0 ≤ n) :
    ((pyRange 0 (n + 1)).flatMap (fun x => if x < 0 ∨ n ≤ x then []
      else (pyRange 0 (n + 1)).flatMap (fun y => if y < 0 ∨ n ≤ y then [] else [(x, y)]))) =
      (pyRange 0 n) ×ˢ (pyRange 0 n) := by
  rw [pyRange_append_last 0 n hn, List.flatMap_append]
  have hlast : ([n] : List ℤ).flatMap (fun x => if x < 0 ∨ n ≤ x then []
      else (pyRange 0 n ++ [n]).flatMap (fun y => if y < 0 ∨ n ≤ y then [] else [(x, y)]))
      = [] := by
    simp
  rw [hlast, List.append_nil]
  rw [flatMap_congr_left
    (g := fun x => (pyRange 0 n).map (fun y => (x, y))) ?_]
  · rfl
  · intro x hx
    have := mem_pyRange.mp hx
    rw [if_neg (by omega), ← pyRange_append_last 0 n hn, inner_guard_eq n x hn]

lemma product_pyRange_count (n : ℤ) (x y : ℤ) :
    ((pyRange 0 n) ×ˢ (pyRange 0 n)).count (x, y) =
      if 0 ≤ x ∧ x < n ∧ 0 ≤ y ∧ y < n then 1 else 0 := by
  have hnd : ((pyRange 0 n) ×ˢ (pyRange 0 n)).Nodup :=
    (pyRange_nodup 0 n).product (pyRange_nodup 0 n)
  by_cases h : 0 ≤ x ∧ x < n ∧ 0 ≤ y ∧ y < n
  · rw [if_pos h]
    apply count_eq_one_of_nodup hnd
    rw [List.mem_product, mem_pyRange, mem_pyRange]
    omega
  · rw [if_neg h]
    rw [List.count_eq_zero]
    rw [List.mem_product, mem_pyRange, mem_pyRange]
    omega

/-- At the whole Mercator extent, the per-zoom enumeration of
`render_tiles` is exactly the square `[0, 2^z) × [0, 2^z)`. -/
lemma tilesAtZoom_full_extent (ts : ℤ) (z : ℕ) (hts : 0 < ts)
    (hc : (ts : ℝ) * 2 ^ z ≤ 134217728) :
    tilesAtZoom (GoogleProjection.init (z + 1) (ts : ℝ)) ts (-180, MERC_MAX_LATITUDE)
        (180, -MERC_MAX_LATITUDE) z =
      some ((pyRange 0 (2 ^ z)) ×ˢ (pyRange 0 (2 ^ z))) := by
  rw [tilesAtZoom, corner_pixel_nw (z + 1) ts z (by omega) hts hc,
    corner_pixel_se (z + 1) ts z (by omega) hts hc]
  have key : ∀ b : ℤ, (ts * b).tdiv ts = b := fun b => Int.mul_tdiv_cancel_left b (by omega)
  simp only [Option.pure_def, Option.bind_eq_bind, Option.some_bind, Option.some_inj,
    Int.zero_tdiv, key]
  exact outer_guard_eq (2 ^ z) (by positivity)

/-- Claim C2. For the bounding box equal to the whole valid Mercator extent
and a single zoom level `z` (CLI zooms satisfy `z ≤ 17` and tile sizes
are 256, 512 or 1024), the enumeration in `render_tiles` yields exactly
`2^z * 2^z` tile coordinates, each `(x, y) ∈ [0, 2^z) × [0, 2^z)`
appearing exactly once; in particular at zoom 0 with tile size 256
exactly the one tile `(0, 0, 0)` is yielded (instantiate `z = 0`,
`ts = 256`: the count function forces the single-element list). -/
theorem full_extent_coverage (z : ℕ) (ts : ℤ)
    (hts : ts = 256 ∨ ts = 512 ∨ ts = 1024) (hz : z ≤ 17) :
    ∃ l, renderTilesCoords (-180, -MERC_MAX_LATITUDE, 180, MERC_MAX_LATITUDE) z z ts =
        some l ∧
      l.length = 2 ^ z * 2 ^ z ∧
      (∀ x y : ℤ, l.count (z, x, y) =
        if 0 ≤ x ∧ x < 2 ^ z ∧ 0 ≤ y ∧ y < 2 ^ z then 1 else 0) ∧
      ∀ q ∈ l, q.1 = z := by
  have hts0 : 0 < ts := by rcases hts with h | h | h <;> omega
  have hc : (ts : ℝ) * 2 ^ z ≤ 134217728 := by
    have h2z : (2 : ℝ) ^ z ≤ 2 ^ 17 := by
      apply pow_le_pow_right₀ (by norm_num) hz
    rcases hts with h | h | h <;> (subst h; push_cast; nlinarith)
  refine ⟨((pyRange 0 (2 ^ z)) ×ˢ (pyRange 0 (2 ^ z))).map (fun p => (z, p.1, p.2)),
    ?_, ?_, ?_, ?_⟩
  · rw [renderTilesCoords]
    have hrange : List.range' z (z + 1 - z) = [z] := by
      have h1 : z + 1 - z = 1 := by omega
      rw [h1]
      rfl
    rw [hrange]
    simp only [renderTilesLoop]
    have hll0 : (((-180 : ℝ), -MERC_MAX_LATITUDE, (180 : ℝ), MERC_MAX_LATITUDE).1,
        ((-180 : ℝ), -MERC_MAX_LATITUDE, (180 : ℝ), MERC_MAX_LATITUDE).2.2.2) =
        ((-180 : ℝ), MERC_MAX_LATITUDE) := rfl
    have hll1 : (((-180 : ℝ), -MERC_MAX_LATITUDE, (180 : ℝ), MERC_MAX_LATITUDE).2.2.1,
        ((-180 : ℝ), -MERC_MAX_LATITUDE, (180 : ℝ), MERC_MAX_LATITUDE).2.1) =
        ((180 : ℝ), -MERC_MAX_LATITUDE) := rfl
    rw [hll0, hll1]
    rw [tilesAtZoom_full_extent ts z hts0 hc]
    simp only [Option.pure_def, Option.bind_eq_bind, Option.some_bind, Option.some_inj]
    rw [List.append_nil]
  · rw [List.length_map, List.length_product, pyRange_length, sub_zero]
    rw [show ((2 : ℤ) ^ z) = ((2 ^ z : ℕ) : ℤ) by push_cast; ring]
    rw [Int.toNat_natCast]
  · intro x y
    have hinj : Function.Injective (fun p : ℤ × ℤ => ((z, p.1, p.2) : ℕ × ℤ × ℤ)) := by
      intro p q h
      cases p
      cases q
      simpa [Prod.ext_iff] using h
    have hcnt := count_map_inj ((pyRange 0 (2 ^ z)) ×ˢ (pyRange 0 (2 ^ z)))
      (fun p : ℤ × ℤ => ((z, p.1, p.2) : ℕ × ℤ × ℤ)) hinj (x, y)
    simp only at hcnt
    rw [hcnt, product_pyRange_count]
  · intro q hq
    obtain ⟨p, _, rfl⟩ := List.mem_map.mp hq
    rfl

/-- Concrete evaluation: at zoom range `[0, 0]`, tile size 256 and the
whole Mercator extent, the enumeration yields exactly `[(0, 0, 0)]`. -/
lemma renderTilesCoords_full_z0 :
    renderTilesCoords (-180, -MERC_MAX_LATITUDE, 180, MERC_MAX_LATITUDE) 0 0 256 =
      some [(0, 0, 0)] := by
  rw [renderTilesCoords]
  have hrange : List.range' 0 (0 + 1 - 0) = [0] := rfl
  rw [hrange]
  simp only [renderTilesLoop]
  have hll0 : (((-180 : ℝ), -MERC_MAX_LATITUDE, (180 : ℝ), MERC_MAX_LATITUDE).1,
      ((-180 : ℝ), -MERC_MAX_LATITUDE, (180 : ℝ), MERC_MAX_LATITUDE).2.2.2) =
      ((-180 : ℝ), MERC_MAX_LATITUDE) := rfl
  have hll1 : (((-180 : ℝ), -MERC_MAX_LATITUDE, (180 : ℝ), MERC_MAX_LATITUDE).2.2.1,
      ((-180 : ℝ), -MERC_MAX_LATITUDE, (180 : ℝ), MERC_MAX_LATITUDE).2.1) =
      ((180 : ℝ), -MERC_MAX_LATITUDE) := rfl
  rw [hll0, hll1]
  rw [tilesAtZoom_full_extent 256 0 (by norm_num) (by norm_num)]
  simp only [Option.pure_def, Option.bind_eq_bind, Option.some_bind, Option.some_inj]
  rfl

/-- Closed witness for `tile_index_bounds`: the single tile enumerated at
zoom 0 over the whole extent satisfies the bounds. -/
theorem tile_index_bounds_witness :
    0 ≤ (((0, 0, 0) : ℕ × ℤ × ℤ)).2.1 ∧
      (((0, 0, 0) : ℕ × ℤ × ℤ)).2.1 < 2 ^ (((0, 0, 0) : ℕ × ℤ × ℤ)).1 ∧
      0 ≤ (((0, 0, 0) : ℕ × ℤ × ℤ)).2.2 ∧
      (((0, 0, 0) : ℕ × ℤ × ℤ)).2.2 < 2 ^ (((0, 0, 0) : ℕ × ℤ × ℤ)).1 :=
  tile_index_bounds (-180, -MERC_MAX_LATITUDE, 180, MERC_MAX_LATITUDE) 0 0 256 [(0, 0, 0)]
    renderTilesCoords_full_z0 (0, 0, 0) (List.mem_singleton_self _)

/-- Closed witness for `full_extent_coverage`: zoom 0, tile size 256. -/
theorem full_extent_coverage_witness :
    ((256 : ℤ) = 256 ∨ (256 : ℤ) = 512 ∨ (256 : ℤ) = 1024) ∧ (0 : ℕ) ≤ 17 ∧
      ∃ l, renderTilesCoords (-180, -MERC_MAX_LATITUDE, 180, MERC_MAX_LATITUDE) 0 0 256 =
          some l ∧
        l.length = 2 ^ 0 * 2 ^ 0 ∧
        (∀ x y : ℤ, l.count (0, x, y) =
          if 0 ≤ x ∧ x < 2 ^ 0 ∧ 0 ≤ y ∧ y < 2 ^ 0 then 1 else 0) ∧
        ∀ q ∈ l, q.1 = 0 :=
  ⟨by norm_num, by norm_num, full_extent_coverage 0 256 (by norm_num) (by norm_num)⟩

end GenerateTiles
